import Mathlib

/-!
Verification of the runtime & model provisioning subsystem of rembg
(`rembg-rs`), via a shallow embedding of `runtime.rs`, `download.rs`,
`pypi.rs` and `model.rs`.  File systems, zip archives and network bodies
are modelled explicitly; hash functions and dynamic-library loading are
parameters, since they are external to the code under study.
-/

namespace Rembg

/-! ## String helpers modelling Rust `str` operations -/

/-- Byte/codepoint-wise comparison of character lists, modelling Rust
`str::cmp` (lexicographic). -/
def charsCmp : List Char → List Char → Ordering
  | [], [] => Ordering.eq
  | [], _ :: _ => Ordering.lt
  | _ :: _, [] => Ordering.gt
  | a :: as, b :: bs =>
    match compare a.toNat b.toNat with
    | Ordering.eq => charsCmp as bs
    | o => o

/-- Rust `String::cmp`. -/
def strCmp (a b : String) : Ordering := charsCmp a.data b.data

/-- Rust `str::to_ascii_lowercase` (Lean `Char.toLower` only affects ASCII). -/
def strLower (s : String) : String := ⟨s.data.map Char.toLower⟩

/-- Rust `str::trim`: strip leading and trailing whitespace. -/
def strTrim (s : String) : String :=
  ⟨((s.data.dropWhile Char.isWhitespace).reverse.dropWhile Char.isWhitespace).reverse⟩

/-- Test whether `needle` occurs as a contiguous sublist of `hay`. -/
def listContainsSub (hay needle : List Char) : Bool :=
  if needle.isPrefixOf hay then true
  else
    match hay with
    | [] => false
    | _ :: t => listContainsSub t needle

/-- Rust `str::contains` (substring search). -/
def strContains (s sub : String) : Bool := listContainsSub s.data sub.data

/-- Rust `str::starts_with`. -/
def strStartsWith (s pre : String) : Bool := pre.data.isPrefixOf s.data

/-- Rust `str::ends_with`. -/
def strEndsWith (s suf : String) : Bool := suf.data.isSuffixOf s.data

/-! ## Version comparison (`runtime.rs`: `parse_version_prefix`, `cmp_versions`) -/

/-- Numeric value of a list of ASCII digits. -/
def digitsToNat (ds : List Char) : Nat :=
  ds.foldl (fun acc c => acc * 10 + (c.toNat - 48)) 0

/-- Rust `str::split(sep)`: split a character list at every occurrence of
`sep` (adjacent separators yield empty parts). -/
def splitOnChar (sep : Char) : List Char → List (List Char)
  | [] => [[]]
  | c :: rest =>
    if c = sep then [] :: splitOnChar sep rest
    else
      match splitOnChar sep rest with
      | h :: t => (c :: h) :: t
      | [] => [[c]]

/-- Loop body of `parse_version_prefix`: for each dot-separated part take its
leading ASCII-digit run; stop at the first part without one (or whose value
does not fit in a `u64`). -/
def parse_version_go : List (List Char) → List Nat
  | [] => []
  | p :: ps =>
    let digits := p.takeWhile Char.isDigit
    if digits.isEmpty then []
    else
      let v := digitsToNat digits
      if v < 2 ^ 64 then v :: parse_version_go ps else []

/-- Model of `runtime.rs` `parse_version_prefix`: numeric dot-separated prefix of a
version directory name (e.g. `[1, 24, 1]` from `"1.24.1.post1"`). -/
def parse_version_nums (s : String) : List Nat :=
  parse_version_go (splitOnChar '.' s.data)

/-- Tail of the index loop of `cmp_versions` once the left prefix is
exhausted: every missing left position is read as 0. -/
def cmpZerosL : List Nat → Ordering
  | [] => Ordering.eq
  | b :: bs =>
    match compare 0 b with
    | Ordering.eq => cmpZerosL bs
    | o => o

/-- Tail of the index loop of `cmp_versions` once the right prefix is
exhausted: every missing right position is read as 0. -/
def cmpZerosR : List Nat → Ordering
  | [] => Ordering.eq
  | a :: as =>
    match compare a 0 with
    | Ordering.eq => cmpZerosR as
    | o => o

/-- The index loop of `cmp_versions`: compare two numeric prefixes position by
position, treating a missing position as 0. -/
def cmpPadded : List Nat → List Nat → Ordering
  | [], ys => cmpZerosL ys
  | a :: as, [] => cmpZerosR (a :: as)
  | a :: as, b :: bs =>
    match compare a b with
    | Ordering.eq => cmpPadded as bs
    | o => o

/-- Model of `runtime.rs` `cmp_versions`: numeric-prefix comparison, falling back to
lexicographic comparison of the full strings. -/
def cmp_versions (a b : String) : Ordering :=
  match cmpPadded (parse_version_nums a) (parse_version_nums b) with
  | Ordering.eq => strCmp a b
  | o => o

/-! ## Execution plan resolver (`runtime.rs`: `plan_noninteractive`, `resolve_plan`)

The planners consult only the on-disk cache, modelled by a predicate
`cached : String → Bool` standing for `has_any_cached_runtime`, and (for the
interactive planner) the user's answer to the one GPU prompt. -/

/-- Model of `cli.rs` `Device`. -/
inductive Device
  | cpu
  | gpu
  | auto
deriving DecidableEq, Repr

/-- Model of `cli.rs` `GpuBackend`. -/
inductive GpuBackend
  | auto
  | directml
  | cuda
deriving DecidableEq, Repr

/-- Model of `runtime.rs` `PreferredEp`. -/
inductive PreferredEp
  | directML
  | cuda
deriving DecidableEq, Repr

/-- Model of `runtime.rs` `Plan`. -/
structure Plan where
  runtime_package : String
  ep : Option PreferredEp
  allow_download : Bool
deriving DecidableEq, Repr

/-- The final `match backend` of both planners: validate the resolved backend
against the platform support matrix and emit the plan. -/
def apply_backend (backend : GpuBackend) (allow_download : Bool)
    (os arch : String) : Except String Plan :=
  match backend with
  | GpuBackend.directml =>
    if os ≠ "windows" then
      Except.error "DirectML backend is only supported on Windows"
    else
      Except.ok ⟨"onnxruntime-directml", some PreferredEp.directML, allow_download⟩
  | GpuBackend.cuda =>
    if (os = "windows" ∧ arch = "x86_64")
        ∨ (os = "linux" ∧ (arch = "x86_64" ∨ arch = "aarch64")) then
      Except.ok ⟨"onnxruntime-gpu", some PreferredEp.cuda, allow_download⟩
    else
      Except.error ("CUDA backend not supported on this platform (" ++ os ++ "/" ++ arch ++ ")")
  | GpuBackend.auto =>
    Except.error ("GPU backend not supported on this platform (" ++ os ++ "/" ++ arch ++ ")")

/-- The Auto resolution step of both planners: per-OS default, preferring a
cached backend on Windows. -/
def auto_backend (gpu_backend : GpuBackend) (os : String)
    (cached : String → Bool) : GpuBackend :=
  match gpu_backend with
  | GpuBackend.auto =>
    if os = "windows" then
      -- Prefer cached backend to avoid downloads when possible.
      if cached "onnxruntime-directml" = true then GpuBackend.directml
      else if cached "onnxruntime-gpu" = true then GpuBackend.cuda
      else GpuBackend.directml
    else if os = "linux" then GpuBackend.cuda
    else GpuBackend.auto
  | other => other

/-- The shared tail of both planners: resolve `GpuBackend::Auto` to a concrete
backend using the OS and the cache, then validate the platform matrix
(`runtime.rs` lines 63–105 and 145–187, which are textually identical). -/
def resolve_gpu_backend (gpu_backend : GpuBackend) (allow_download : Bool)
    (os arch : String) (cached : String → Bool) : Except String Plan :=
  apply_backend (auto_backend gpu_backend os cached) allow_download os arch

/-- Model of `runtime.rs` `plan_noninteractive`. -/
def plan_noninteractive (device : Device) (gpu_backend : GpuBackend)
    (allow_download : Bool) (os arch : String) (cached : String → Bool) :
    Except String Plan :=
  if device = Device.cpu then
    -- On Windows, prefer the DirectML runtime even for CPU runs when possible
    -- (unless CUDA was explicitly requested); fall back to the CPU runtime if
    -- downloads are disallowed and DirectML is not cached.
    if os = "windows" ∧ gpu_backend ≠ GpuBackend.cuda
        ∧ (allow_download = true ∨ cached "onnxruntime-directml" = true) then
      Except.ok ⟨"onnxruntime-directml", none, allow_download⟩
    else
      Except.ok ⟨"onnxruntime", none, allow_download⟩
  else
    resolve_gpu_backend gpu_backend allow_download os arch cached

/-- Model of `runtime.rs` `prompt_yes_no`, with the user's answer as a parameter. -/
def prompt_yes_no (assume_yes : Bool) (answer : Bool) : Bool :=
  if assume_yes then true else answer

/-- Model of `runtime.rs` `resolve_plan` (interactive). `yes` is `args.yes`; `answer`
models the user's reply to the single GPU-enable prompt, consulted only when
that prompt is actually shown. -/
def resolve_plan (device : Device) (gpu_backend : GpuBackend) (yes : Bool)
    (os arch : String) (cached : String → Bool) (answer : Bool) :
    Except String Plan :=
  -- (want_gpu, allow_download): `allow_download` starts as `args.yes` and is
  -- upgraded when the user accepts the GPU prompt.
  let wg : Bool × Bool :=
    match device with
    | Device.cpu => (false, yes)
    | Device.gpu => (true, yes)
    | Device.auto =>
      if os ≠ "windows" then (false, yes)
      else if cached "onnxruntime-directml" = true ∨ cached "onnxruntime-gpu" = true then
        (true, yes)
      else
        let ok := prompt_yes_no yes answer
        (ok, if ok then true else yes)
  if wg.1 = false then
    Except.ok ⟨"onnxruntime", none, wg.2⟩
  else
    resolve_gpu_backend gpu_backend wg.2 os arch cached

/-! ## Backend init guard (`runtime.rs`: `init_ort`)

The process-wide `OnceLock<PathBuf>` becomes an explicit `Option String`
state threaded through calls; `loadOk` models whether `ort::init_from`
succeeds for a given library path. -/

/-- Model of `runtime.rs` `init_ort` as a state transition: given the committed path (if
any) and the requested main-library path, return the call's result and the new
committed state. -/
def init_ort (loadOk : String → Bool) (st : Option String) (path : String) :
    Except String Unit × Option String :=
  match st with
  | some p =>
    if p ≠ path then
      (Except.error ("ONNX Runtime is already initialized with " ++ p
        ++ ". Restart required to switch to " ++ path ++ "."), some p)
    else
      (Except.ok (), some p)
  | none =>
    if loadOk path then (Except.ok (), some path)
    else (Except.error ("load onnxruntime from " ++ path), none)

/-- Run a sequence of `init_ort` calls, returning the final committed state. -/
def run_init (loadOk : String → Bool) : Option String → List String → Option String
  | st, [] => st
  | st, p :: ps => run_init loadOk (init_ort loadOk st p).2 ps

/-! ## Download engine (`download.rs`)

File content is a list of bytes; the state tracks the two paths the function
touches: the temporary `<dst>.part` file and the destination `dst`.  The
SHA-256 and MD5 functions are parameters (external library calls); the
streaming loop's incremental digest equals the digest of the whole body. -/

/-- Model of `download.rs` `Digests`. -/
structure Digests where
  sha256_hex : Option String
  md5_hex : Option String
deriving DecidableEq, Repr

/-- Contents (if present) of the temp `.part` file and of the destination. -/
structure DlState where
  tmp : Option (List Nat)
  dst : Option (List Nat)
deriving DecidableEq, Repr

/-- Helper for `download.rs` `eq_hex`: trim, strip leading `0x` repetitions, then
ASCII-case-insensitive equality. -/
def drop0x : List Char → List Char
  | '0' :: 'x' :: rest => drop0x rest
  | l => l

/-- Model of `download.rs` `eq_hex`. -/
def eq_hex (a b : String) : Bool :=
  let na := drop0x (strTrim a).data
  let nb := drop0x (strTrim b).data
  na.map Char.toLower == nb.map Char.toLower

/-- Final step of the download: atomically rename the temp file onto `dst`. -/
def download_finish (body : List Nat) : Except String Unit × DlState :=
  (Except.ok (), ⟨none, some body⟩)

/-- MD5 check of `download.rs` (runs after the SHA-256 check). -/
def download_check_md5 (md5f : List Nat → String) (url : String)
    (body : List Nat) (dg : Digests) (st : DlState) :
    Except String Unit × DlState :=
  match dg.md5_hex with
  | some expected =>
    if eq_hex expected (md5f body) = false then
      (Except.error ("md5 mismatch for " ++ url ++ ": expected " ++ expected
        ++ ", got " ++ md5f body), st)
    else download_finish body
  | none => download_finish body

/-- Model of `download.rs` `download_to_path_with_progress`: remove any stale temp
file, fail on non-2xx status, stream the body into the temp file, verify the
requested digests, and only then rename the temp file to `dst`. -/
def download_to_path_with_progress (sha256f md5f : List Nat → String)
    (url : String) (status : Nat) (body : List Nat) (dg : Digests)
    (st : DlState) : Except String Unit × DlState :=
  let st1 : DlState := ⟨none, st.dst⟩
  if status / 100 ≠ 2 then
    (Except.error ("download failed (HTTP " ++ toString status ++ "): " ++ url), st1)
  else
    let st2 : DlState := ⟨some body, st1.dst⟩
    match dg.sha256_hex with
    | some expected =>
      if eq_hex expected (sha256f body) = false then
        (Except.error ("sha256 mismatch for " ++ url ++ ": expected " ++ expected
          ++ ", got " ++ sha256f body), st2)
      else download_check_md5 md5f url body dg st2
    | none => download_check_md5 md5f url body dg st2

/-! ## Package index client (`pypi.rs`) -/

/-- Model of `pypi.rs` `PypiReleaseFile` (the `digests.sha256` field is inlined). -/
structure PypiReleaseFile where
  filename : String
  url : String
  packagetype : String
  sha256 : String
deriving DecidableEq, Repr

/-- Model of `pypi.rs` `PypiProject`: current version plus the per-version release
lists (the JSON object becomes an association list). -/
structure PypiProject where
  version : String
  releases : List (String × List PypiReleaseFile)
deriving DecidableEq, Repr

/-- Model of `HashMap::get(&info.version)` on the releases map. -/
def releases_lookup (proj : PypiProject) : Option (List PypiReleaseFile) :=
  (proj.releases.find? (fun kv => kv.1 == proj.version)).map (fun kv => kv.2)

/-- Model of `pypi.rs` `wheel_matches`: OS/arch platform-tag match on the wheel
filename. -/
def wheel_matches (filename os arch : String) : Bool :=
  if os = "windows" ∧ arch = "x86_64" then strEndsWith filename "win_amd64.whl"
  else if os = "windows" ∧ arch = "aarch64" then strEndsWith filename "win_arm64.whl"
  else if os = "linux" ∧ arch = "x86_64" then
    strEndsWith filename "x86_64.whl" && strContains filename "manylinux"
  else if os = "linux" ∧ arch = "aarch64" then
    strEndsWith filename "aarch64.whl" && strContains filename "manylinux"
  else if os = "macos" ∧ arch = "aarch64" then
    strEndsWith filename "arm64.whl" && strContains filename "macosx"
  else if os = "macos" ∧ arch = "x86_64" then
    strEndsWith filename "x86_64.whl" && strContains filename "macosx"
  else false

/-- Model of `pypi.rs` `select_wheel`: restrict the current version's files to
`bdist_wheel` entries, sort by filename (stable), and take the first match. -/
def select_wheel (proj : PypiProject) (os arch : String) :
    Except String PypiReleaseFile :=
  match releases_lookup proj with
  | none => Except.error ("missing releases entry for version " ++ proj.version)
  | some files =>
    let candidates := files.filter (fun f => f.packagetype == "bdist_wheel")
    let sorted := List.insertionSort (fun a b => a.filename ≤ b.filename) candidates
    match sorted.find? (fun f => wheel_matches f.filename os arch) with
    | some f => Except.ok f
    | none =>
      Except.error ("no wheel found for " ++ os ++ "/" ++ arch ++ " in " ++ proj.version)

/-! ## Cache store (`runtime.rs`: `find_main_lib`, `extract_ort_libs_from_wheel`,
`find_any_wheel`, `find_any_installed_lib`)

A directory is a list of files with names and sizes; a wheel archive is a
list of zip entries with names, a directory flag, and byte contents. -/

/-- A plain file in a directory: name and size in bytes. -/
structure FileEnt where
  name : String
  size : Nat
deriving DecidableEq, Repr

/-- A zip entry of a wheel archive. -/
structure ZipEntry where
  name : String
  isDir : Bool
  data : List Nat
deriving DecidableEq, Repr

/-- A plain file in a version directory, with its content parsed as a zip
archive (only used for `.whl` files). -/
structure DirFile where
  name : String
  zip : List ZipEntry
deriving DecidableEq, Repr

/-- A `<package>/<version>/` cache directory: its name, its `lib/`
subdirectory (if it exists), and its plain files. -/
structure VersionDir where
  name : String
  lib : Option (List FileEnt)
  files : List DirFile
deriving DecidableEq, Repr

/-- Model of `Path::file_name` on a zip entry path: the component after the last
slash; `None` for an empty basename or `".."`. -/
def basenameOf (name : String) : Option String :=
  let base : List Char := (name.data.reverse.takeWhile (fun c => c ≠ '/')).reverse
  if base.isEmpty ∨ base = ['.', '.'] then none else some ⟨base⟩

/-- Model of `Path::extension` on a plain file name: the part after the last dot,
absent when there is no dot or the name is all-extension (dotfile). -/
def extensionOf (name : String) : Option String :=
  let cs := name.data
  if cs.contains '.' then
    let ext := (cs.reverse.takeWhile (fun c => c ≠ '.')).reverse
    if cs.length = ext.length + 1 then none else some ⟨ext⟩
  else none

/-- Model of `runtime.rs` `is_runtime_lib_file`: shared-library extensions, including
versioned `.so.N`. -/
def is_runtime_lib_file (name : String) : Bool :=
  let lower := strLower name
  strEndsWith lower ".dll" || strEndsWith lower ".so"
    || strContains lower ".so." || strEndsWith lower ".dylib"

/-- Helper of `runtime.rs` `find_main_lib`: exact conventional filename per OS. -/
def prefer_name (os : String) : String :=
  if os = "windows" then "onnxruntime.dll"
  else if os = "macos" then "libonnxruntime.dylib"
  else "libonnxruntime.so"

/-- The per-OS naming-convention match of `find_main_lib`, applied to the
lowercased filename. -/
def lib_matches (os lower : String) : Bool :=
  if os = "windows" then lower == "onnxruntime.dll"
  else if os = "macos" then
    strStartsWith lower "libonnxruntime" && strEndsWith lower ".dylib"
  else strStartsWith lower "libonnxruntime.so"

/-- The fallback loop of `find_main_lib`: scan the directory keeping the
largest matching file seen so far (strictly larger replaces). -/
def best_lib (os : String) : Option (Nat × String) → List FileEnt → Option (Nat × String)
  | best, [] => best
  | best, f :: rest =>
    if lib_matches os (strLower f.name) = true then
      match best with
      | none => best_lib os (some (f.size, f.name)) rest
      | some (bl, bn) =>
        if f.size > bl then best_lib os (some (f.size, f.name)) rest
        else best_lib os (some (bl, bn)) rest
    else best_lib os best rest

/-- Model of `runtime.rs` `find_main_lib`: the OS's conventional name if present,
otherwise the largest file matching the platform convention; `none` for a
missing directory or no candidate. -/
def find_main_lib (os : String) (dir : Option (List FileEnt)) : Option String :=
  match dir with
  | none => none
  | some files =>
    if files.any (fun f => f.name == prefer_name os) then some (prefer_name os)
    else (best_lib os none files).map (fun b => b.2)

/-- Model of `runtime.rs` `extract_ort_libs_from_wheel`: keep non-directory entries
under a `/capi/` segment with a shared-library extension, flatten to the
basename, and skip basenames already present in `lib/`. -/
def extract_ort_libs_from_wheel : List ZipEntry → List FileEnt → Except String (List FileEnt)
  | [], lib => Except.ok lib
  | e :: rest, lib =>
    if e.isDir then extract_ort_libs_from_wheel rest lib
    else
      let name : String := ⟨e.name.data.map (fun c => if c = '\\' then '/' else c)⟩
      if strContains name "/capi/" = false then extract_ort_libs_from_wheel rest lib
      else if is_runtime_lib_file name = false then extract_ort_libs_from_wheel rest lib
      else
        match basenameOf name with
        | none => Except.error ("invalid zip entry name: " ++ name)
        | some base =>
          if lib.any (fun f => f.name == base) then extract_ort_libs_from_wheel rest lib
          else extract_ort_libs_from_wheel rest (lib ++ [⟨base, e.data.length⟩])

/-- Model of `runtime.rs` `find_any_wheel`: first file in the directory with a `.whl`
extension (case-insensitive). -/
def find_any_wheel (files : List DirFile) : Option DirFile :=
  files.find? (fun f =>
    match extensionOf f.name with
    | some ext => strLower ext == "whl"
    | none => false)

/-- Loop of `find_any_installed_lib` over version directories (already sorted
by descending version): use an installed `lib/` if recognizable, otherwise
re-extract from a cached wheel before moving on. -/
def find_installed_go (os : String) : List VersionDir → Except String (Option (String × String))
  | [] => Except.ok none
  | v :: rest =>
    match find_main_lib os v.lib with
    | some m => Except.ok (some (v.name, m))
    | none =>
      match find_any_wheel v.files with
      | some w =>
        match extract_ort_libs_from_wheel w.zip (v.lib.getD []) with
        | Except.error e => Except.error e
        | Except.ok lib2 =>
          match find_main_lib os (some lib2) with
          | some m => Except.ok (some (v.name, m))
          | none => find_installed_go os rest
      | none => find_installed_go os rest

/-- Model of `runtime.rs` `find_any_installed_lib`: sort version directories by
descending parsed version, then scan with recovery-by-extraction.  Returns
the version directory name and main-library filename. -/
def find_any_installed_lib (os : String) (versions : List VersionDir) :
    Except String (Option (String × String)) :=
  let sorted := List.insertionSort
    (fun a b => cmp_versions b.name a.name ≠ Ordering.gt) versions
  find_installed_go os sorted

/-! ## Model registry (`model.rs`) -/

/-- Model of `model.rs` `ModelInstall`. -/
structure ModelInstall where
  path : String
  input_size : Nat
deriving DecidableEq, Repr

/-- Model of `model.rs` `ModelSpec`. -/
structure ModelSpecT where
  name : String
  url : String
  input_size : Nat
deriving DecidableEq, Repr

/-- The names accepted by `model_spec` (after trimming and lowercasing). -/
def supported_models : List String :=
  ["u2netp", "u2net", "u2net_human_seg", "u2net_cloth_seg", "silueta",
   "isnet-general-use", "isnet-anime"]

/-- The normalization `model_spec` applies to its argument. -/
def normalize_model_name (s : String) : String := strLower (strTrim s)

/-- The base of the model download URLs in `model.rs`. -/
def model_url_base : String :=
  "https://github.com/danielgatis/rembg/releases/download/v0.0.0/"

/-- Model of `model.rs` `model_spec`: the static table of supported models. -/
def model_spec (name : String) : Except String ModelSpecT :=
  let n := normalize_model_name name
  if n = "u2netp" then Except.ok ⟨"u2netp", model_url_base ++ "u2netp.onnx", 320⟩
  else if n = "u2net" then Except.ok ⟨"u2net", model_url_base ++ "u2net.onnx", 320⟩
  else if n = "u2net_human_seg" then
    Except.ok ⟨"u2net_human_seg", model_url_base ++ "u2net_human_seg.onnx", 320⟩
  else if n = "u2net_cloth_seg" then
    Except.ok ⟨"u2net_cloth_seg", model_url_base ++ "u2net_cloth_seg.onnx", 320⟩
  else if n = "silueta" then Except.ok ⟨"silueta", model_url_base ++ "silueta.onnx", 320⟩
  else if n = "isnet-general-use" then
    Except.ok ⟨"isnet-general-use", model_url_base ++ "isnet-general-use.onnx", 1024⟩
  else if n = "isnet-anime" then
    Except.ok ⟨"isnet-anime", model_url_base ++ "isnet-anime.onnx", 1024⟩
  else
    Except.error ("unsupported model: " ++ n
      ++ " (supported: u2netp, u2net, u2net_human_seg, u2net_cloth_seg, silueta, isnet-general-use, isnet-anime)")

/-- Model of `model.rs` `ensure_model_noninteractive`.  `base` is the user cache
directory, `existing` the set of files present in it, and `dlOk` whether the
network download (when attempted) succeeds.  On success the second component
records the digests passed to the download engine (`none` = no download). -/
def ensure_model_noninteractive (name : String) (allow_download : Bool)
    (base : String) (existing : List String) (dlOk : Bool) :
    Except String (ModelInstall × Option Digests) :=
  match model_spec name with
  | Except.error e => Except.error e
  | Except.ok m =>
    let path := base ++ "/models/" ++ m.name ++ ".onnx"
    if path ∈ existing then Except.ok (⟨path, m.input_size⟩, none)
    else if allow_download = false then
      Except.error ("download required: model " ++ m.name ++ " (" ++ m.url ++ ")")
    else if dlOk then Except.ok (⟨path, m.input_size⟩, some ⟨none, none⟩)
    else Except.error ("download model " ++ m.name ++ " from " ++ m.url)

/-! ## Theorems -/

/-- Any single `init_ort` call from a committed state keeps the committed
path unchanged. -/
lemma init_ort_snd_committed (loadOk : String → Bool) (A p : String) :
    (init_ort loadOk (some A) p).2 = some A := by
  by_cases hp : A ≠ p <;> simp [init_ort, hp]

/-- C1: the first `init_ort` call with library path A commits A and
succeeds; every later call with the same path A is a successful no-op; every
later call with a different path B returns the restart-required error; in
all cases the committed path stays A for the rest of the call sequence. -/
theorem init_ort_guard (loadOk : String → Bool) (A : String)
    (h : loadOk A = true) :
    init_ort loadOk none A = (Except.ok (), some A) ∧
    init_ort loadOk (some A) A = (Except.ok (), some A) ∧
    (∀ B, B ≠ A →
      init_ort loadOk (some A) B =
        (Except.error ("ONNX Runtime is already initialized with " ++ A
          ++ ". Restart required to switch to " ++ B ++ "."), some A)) ∧
    (∀ calls, run_init loadOk (some A) calls = some A) := by
  refine ⟨by simp [init_ort, h], by simp [init_ort], ?_, ?_⟩
  · intro B hB
    have hAB : A ≠ B := Ne.symm hB
    simp [init_ort, hAB]
  · intro calls
    induction calls with
    | nil => rfl
    | cons p ps ih =>
      simpa [run_init, init_ort_snd_committed] using ih

/-- Witness for C1 at a concrete call sequence. -/
theorem init_ort_guard_witness :
    init_ort (fun _ => true) none "liba" = (Except.ok (), some "liba") ∧
    run_init (fun _ => true) (some "liba") ["liba", "libb"] = some "liba" := by
  have h := init_ort_guard (fun _ => true) "liba" rfl
  exact ⟨h.1, h.2.2.2 ["liba", "libb"]⟩

/-- Step lemma: comparing two non-empty padded prefixes. -/
lemma cmpPadded_cons_cons (a b : Nat) (as bs : List Nat) :
    cmpPadded (a :: as) (b :: bs) =
      if a = b then cmpPadded as bs else compare a b := by
  by_cases hab : a = b
  · simp [cmpPadded, hab, Nat.compare_eq_eq.mpr rfl]
  · have hne : compare a b ≠ Ordering.eq := fun hc => hab (Nat.compare_eq_eq.mp hc)
    rcases hc : compare a b with _ | _ | _
    · simp [cmpPadded, hc, hab]
    · exact absurd hc hne
    · simp [cmpPadded, hc, hab]

/-- Evaluating `cmpPadded` against an empty right prefix is the right-padding loop. -/
lemma cmpPadded_nil_right (xs : List Nat) : cmpPadded xs [] = cmpZerosR xs := by
  cases xs <;> rfl

/-- Step lemma: an exhausted left prefix is padded with 0. -/
lemma cmpPadded_nil_cons (b : Nat) (bs : List Nat) :
    cmpPadded [] (b :: bs) =
      if 0 = b then cmpPadded [] bs else compare 0 b := by
  have h00 : compare 0 0 = Ordering.eq := Nat.compare_eq_eq.mpr rfl
  by_cases hb : 0 = b
  · simp [cmpPadded, cmpZerosL, ← hb, h00]
  · have hne : compare 0 b ≠ Ordering.eq := fun hc => hb (Nat.compare_eq_eq.mp hc)
    rcases hc : compare 0 b with _ | _ | _
    · simp [cmpPadded, cmpZerosL, hc, hb]
    · exact absurd hc hne
    · simp [cmpPadded, cmpZerosL, hc, hb]

/-- Step lemma: an exhausted right prefix is padded with 0. -/
lemma cmpPadded_cons_nil (a : Nat) (as : List Nat) :
    cmpPadded (a :: as) [] =
      if a = 0 then cmpPadded as [] else compare a 0 := by
  have h00 : compare 0 0 = Ordering.eq := Nat.compare_eq_eq.mpr rfl
  rw [cmpPadded_nil_right, cmpPadded_nil_right]
  by_cases ha : a = 0
  · simp [cmpZerosR, ha, h00]
  · have hne : compare a 0 ≠ Ordering.eq := fun hc => ha (Nat.compare_eq_eq.mp hc)
    rcases hc : compare a 0 with _ | _ | _
    · simp [cmpZerosR, hc, ha]
    · exact absurd hc hne
    · simp [cmpZerosR, hc, ha]

/-- The padded comparison returns `eq` exactly when every (0-padded)
position agrees. -/
lemma cmpPadded_eq_iff : ∀ (xs ys : List Nat),
    cmpPadded xs ys = Ordering.eq ↔ ∀ i, xs.getD i 0 = ys.getD i 0
  | [], [] => by simp [cmpPadded, cmpZerosL]
  | [], b :: bs => by
    rw [cmpPadded_nil_cons]
    constructor
    · intro h i
      by_cases hb : 0 = b
      · rw [if_pos hb] at h
        cases i with
        | zero => simpa using hb
        | succ n => simpa using (cmpPadded_eq_iff [] bs).mp h n
      · rw [if_neg hb] at h
        exact absurd (Nat.compare_eq_eq.mp h) hb
    · intro h
      have hb : 0 = b := by simpa using h 0
      rw [if_pos hb]
      exact (cmpPadded_eq_iff [] bs).mpr fun n => by simpa using h (n + 1)
  | a :: as, [] => by
    rw [cmpPadded_cons_nil]
    constructor
    · intro h i
      by_cases ha : a = 0
      · rw [if_pos ha] at h
        cases i with
        | zero => simpa using ha
        | succ n => simpa using (cmpPadded_eq_iff as []).mp h n
      · rw [if_neg ha] at h
        exact absurd (Nat.compare_eq_eq.mp h) ha
    · intro h
      have ha : a = 0 := by simpa using h 0
      rw [if_pos ha]
      exact (cmpPadded_eq_iff as []).mpr fun n => by simpa using h (n + 1)
  | a :: as, b :: bs => by
    rw [cmpPadded_cons_cons]
    constructor
    · intro h i
      by_cases hab : a = b
      · rw [if_pos hab] at h
        cases i with
        | zero => simpa using hab
        | succ n => simpa using (cmpPadded_eq_iff as bs).mp h n
      · rw [if_neg hab] at h
        exact absurd (Nat.compare_eq_eq.mp h) hab
    · intro h
      have hab : a = b := by simpa using h 0
      rw [if_pos hab]
      exact (cmpPadded_eq_iff as bs).mpr fun n => by simpa using h (n + 1)
termination_by xs ys => xs.length + ys.length

/-- At the first (0-padded) position where the prefixes differ, the padded
comparison returns the comparison of those two entries. -/
lemma cmpPadded_first_diff : ∀ (xs ys : List Nat) (i : Nat),
    xs.getD i 0 ≠ ys.getD i 0 →
    (∀ j, j < i → xs.getD j 0 = ys.getD j 0) →
    cmpPadded xs ys = compare (xs.getD i 0) (ys.getD i 0)
  | [], [], _ => fun h _ => absurd rfl h
  | [], b :: bs, i => fun h hmin => by
    rw [cmpPadded_nil_cons]
    cases i with
    | zero =>
      have hb : ¬ (0 = b) := by simpa using h
      rw [if_neg hb]
      simp
    | succ n =>
      have hb : 0 = b := by simpa using hmin 0 (Nat.succ_pos n)
      rw [if_pos hb]
      have ih := cmpPadded_first_diff [] bs n (by simpa using h)
        (fun j hj => by simpa using hmin (j + 1) (Nat.succ_lt_succ hj))
      simpa using ih
  | a :: as, [], i => fun h hmin => by
    rw [cmpPadded_cons_nil]
    cases i with
    | zero =>
      have ha : ¬ (a = 0) := by simpa using h
      rw [if_neg ha]
      simp
    | succ n =>
      have ha : a = 0 := by simpa using hmin 0 (Nat.succ_pos n)
      rw [if_pos ha]
      have ih := cmpPadded_first_diff as [] n (by simpa using h)
        (fun j hj => by simpa using hmin (j + 1) (Nat.succ_lt_succ hj))
      simpa using ih
  | a :: as, b :: bs, i => fun h hmin => by
    rw [cmpPadded_cons_cons]
    cases i with
    | zero =>
      have hab : ¬ (a = b) := by simpa using h
      rw [if_neg hab]
      simp
    | succ n =>
      have hab : a = b := by simpa using hmin 0 (Nat.succ_pos n)
      rw [if_pos hab]
      have ih := cmpPadded_first_diff as bs n (by simpa using h)
        (fun j hj => by simpa using hmin (j + 1) (Nat.succ_lt_succ hj))
      simpa using ih
termination_by xs ys _ => xs.length + ys.length

/-- C5: `cmp_versions` compares the maximal numeric dot-separated prefixes
position by position with missing positions read as 0 (so "1.9.0" orders
before "1.10.0"), and falls back to plain lexicographic comparison of the
full strings exactly when those padded prefixes agree everywhere. -/
theorem cmp_versions_correct (a b : String) :
    ((∀ i, (parse_version_nums a).getD i 0 = (parse_version_nums b).getD i 0) →
      cmp_versions a b = strCmp a b) ∧
    (∀ i, (parse_version_nums a).getD i 0 ≠ (parse_version_nums b).getD i 0 →
      (∀ j, j < i →
        (parse_version_nums a).getD j 0 = (parse_version_nums b).getD j 0) →
      cmp_versions a b =
        compare ((parse_version_nums a).getD i 0) ((parse_version_nums b).getD i 0)) ∧
    cmp_versions "1.9.0" "1.10.0" = Ordering.lt := by
  refine ⟨?_, ?_, ?_⟩
  · intro h
    have he : cmpPadded (parse_version_nums a) (parse_version_nums b) = Ordering.eq :=
      (cmpPadded_eq_iff _ _).mpr h
    simp [cmp_versions, he]
  · intro i h hmin
    have hd := cmpPadded_first_diff _ _ i h hmin
    rcases hc : compare ((parse_version_nums a).getD i 0) ((parse_version_nums b).getD i 0)
      with _ | _ | _
    · unfold cmp_versions
      rw [hd, hc]
    · exact absurd (Nat.compare_eq_eq.mp hc) h
    · unfold cmp_versions
      rw [hd, hc]
  · decide

/-- Witness for C5 at a concrete pair of version strings: the padded numeric
prefixes first differ at index 1 (9 vs 10). -/
theorem cmp_versions_correct_witness :
    cmp_versions "1.9.0" "1.10.0" = compare 9 10 := by
  have h := (cmp_versions_correct "1.9.0" "1.10.0").2.1 1 (by decide)
    (fun j hj => by
      have hj0 : j = 0 := by omega
      subst hj0
      decide)
  simpa using h

/-- Resolving an explicitly requested DirectML backend: Windows-only. -/
lemma resolve_gpu_directml (allow : Bool) (os arch : String) (cached : String → Bool) :
    resolve_gpu_backend GpuBackend.directml allow os arch cached =
      if os = "windows" then
        Except.ok ⟨"onnxruntime-directml", some PreferredEp.directML, allow⟩
      else Except.error "DirectML backend is only supported on Windows" := by
  by_cases h : os = "windows" <;>
    simp [resolve_gpu_backend, auto_backend, apply_backend, h]

/-- Resolving an explicitly requested CUDA backend: support-matrix check. -/
lemma resolve_gpu_cuda (allow : Bool) (os arch : String) (cached : String → Bool) :
    resolve_gpu_backend GpuBackend.cuda allow os arch cached =
      if (os = "windows" ∧ arch = "x86_64")
          ∨ (os = "linux" ∧ (arch = "x86_64" ∨ arch = "aarch64")) then
        Except.ok ⟨"onnxruntime-gpu", some PreferredEp.cuda, allow⟩
      else
        Except.error ("CUDA backend not supported on this platform (" ++ os ++ "/" ++ arch ++ ")") := by
  rfl

/-- Whatever backend the GPU path resolves, the resulting plan is never the
plain CPU package. -/
lemma resolve_gpu_backend_not_cpu (b : GpuBackend) (allow : Bool) (os arch : String)
    (cached : String → Bool) (p : Plan) :
    resolve_gpu_backend b allow os arch cached = Except.ok p →
    p.runtime_package ≠ "onnxruntime" := by
  intro h
  unfold resolve_gpu_backend at h
  generalize auto_backend b os cached = bk at h
  cases bk with
  | directml =>
    simp only [apply_backend] at h
    split at h
    · exact absurd h (by simp)
    · rw [Except.ok.injEq] at h
      subst h
      simp
  | cuda =>
    simp only [apply_backend] at h
    split at h
    · rw [Except.ok.injEq] at h
      subst h
      simp
    · exact absurd h (by simp)
  | auto =>
    simp only [apply_backend] at h
    exact absurd h (by simp)

/-- C4: with an explicitly requested accelerator backend, both planners defer
to the shared resolution step, which fails exactly when the OS/arch pair is
outside the support matrix (DirectML: Windows only; CUDA: windows/x86_64,
linux/x86_64 or linux/aarch64) and otherwise produces the plan for exactly
the requested backend. -/
theorem explicit_backend_matrix (b : GpuBackend) (allow yes : Bool) (os arch : String)
    (cached : String → Bool) (answer : Bool) (hb : b ≠ GpuBackend.auto) :
    (plan_noninteractive Device.gpu b allow os arch cached =
       resolve_gpu_backend b allow os arch cached) ∧
    (resolve_plan Device.gpu b yes os arch cached answer =
       resolve_gpu_backend b yes os arch cached) ∧
    ((∃ e, resolve_gpu_backend b allow os arch cached = Except.error e) ↔
       ((b = GpuBackend.directml ∧ os ≠ "windows") ∨
        (b = GpuBackend.cuda ∧
          ¬ ((os = "windows" ∧ arch = "x86_64")
              ∨ (os = "linux" ∧ (arch = "x86_64" ∨ arch = "aarch64")))))) ∧
    (b = GpuBackend.directml → os = "windows" →
       resolve_gpu_backend b allow os arch cached =
         Except.ok ⟨"onnxruntime-directml", some PreferredEp.directML, allow⟩) ∧
    (b = GpuBackend.cuda →
       ((os = "windows" ∧ arch = "x86_64")
           ∨ (os = "linux" ∧ (arch = "x86_64" ∨ arch = "aarch64"))) →
       resolve_gpu_backend b allow os arch cached =
         Except.ok ⟨"onnxruntime-gpu", some PreferredEp.cuda, allow⟩) := by
  refine ⟨by simp [plan_noninteractive], by simp [resolve_plan], ?_, ?_, ?_⟩
  · cases b with
    | auto => exact absurd rfl hb
    | directml =>
      rw [resolve_gpu_directml]
      by_cases hw : os = "windows" <;> simp [hw]
    | cuda =>
      rw [resolve_gpu_cuda]
      by_cases hmx : (os = "windows" ∧ arch = "x86_64")
          ∨ (os = "linux" ∧ (arch = "x86_64" ∨ arch = "aarch64")) <;> simp [hmx]
  · intro h hw
    subst h
    rw [resolve_gpu_directml, if_pos hw]
  · intro h hm
    subst h
    rw [resolve_gpu_cuda, if_pos hm]

/-- Witness for C4: requesting CUDA on macOS/aarch64 fails (and the failure
is characterized by the support matrix). -/
theorem explicit_backend_matrix_witness :
    ∃ e, resolve_gpu_backend GpuBackend.cuda true "macos" "aarch64" (fun _ => false) =
      Except.error e := by
  exact (explicit_backend_matrix GpuBackend.cuda true true "macos" "aarch64"
    (fun _ => false) true (by decide)).2.2.1.mpr (by decide)

/-- C10 (amended): in the non-interactive planner a device preference of
Auto takes exactly the same path as GPU; the result is never the plain-CPU
plan; on Linux with backend Auto it resolves to the CUDA package when the
architecture is supported and fails otherwise; and on an OS where neither
accelerator applies it fails — even though device Auto in the interactive
planner defaults to CPU on non-Windows. -/
theorem plan_auto_device (b : GpuBackend) (allow yes answer : Bool)
    (os arch : String) (cached : String → Bool) :
    (plan_noninteractive Device.auto b allow os arch cached =
       plan_noninteractive Device.gpu b allow os arch cached) ∧
    (∀ p, plan_noninteractive Device.auto b allow os arch cached = Except.ok p →
       p.runtime_package ≠ "onnxruntime") ∧
    (os = "linux" → b = GpuBackend.auto → arch = "x86_64" ∨ arch = "aarch64" →
       plan_noninteractive Device.auto b allow os arch cached =
         Except.ok ⟨"onnxruntime-gpu", some PreferredEp.cuda, allow⟩) ∧
    (os = "linux" → b = GpuBackend.auto → ¬ (arch = "x86_64" ∨ arch = "aarch64") →
       plan_noninteractive Device.auto b allow os arch cached =
         Except.error ("CUDA backend not supported on this platform (" ++ os ++ "/" ++ arch ++ ")")) ∧
    (os ≠ "windows" → os ≠ "linux" → b = GpuBackend.auto →
       plan_noninteractive Device.auto b allow os arch cached =
         Except.error ("GPU backend not supported on this platform (" ++ os ++ "/" ++ arch ++ ")")) ∧
    (os ≠ "windows" →
       resolve_plan Device.auto b yes os arch cached answer =
         Except.ok ⟨"onnxruntime", none, yes⟩) := by
  refine ⟨by simp [plan_noninteractive], ?_, ?_, ?_, ?_, ?_⟩
  · intro p hp
    have h : resolve_gpu_backend b allow os arch cached = Except.ok p := by
      simpa [plan_noninteractive] using hp
    exact resolve_gpu_backend_not_cpu b allow os arch cached p h
  · intro hos hb harch
    subst hos
    subst hb
    simp [plan_noninteractive, resolve_gpu_backend, auto_backend, apply_backend, harch]
  · intro hos hb harch
    subst hos
    subst hb
    simp [plan_noninteractive, resolve_gpu_backend, auto_backend, apply_backend, harch]
  · intro hw hl hb
    subst hb
    simp [plan_noninteractive, resolve_gpu_backend, auto_backend, apply_backend, hw, hl]
  · intro hw
    simp [resolve_plan, hw]

/-- Counterexample for C10 as stated: on Linux with an unsupported
architecture (32-bit x86), device Auto with backend Auto does not resolve to
the CUDA GPU package — it fails. -/
theorem plan_auto_device_counterexample :
    plan_noninteractive Device.auto GpuBackend.auto true "linux" "x86" (fun _ => false) =
      Except.error "CUDA backend not supported on this platform (linux/x86)" := by
  rfl

/-- Witness for C10 (amended) at Linux/x86_64. -/
theorem plan_auto_device_witness :
    plan_noninteractive Device.auto GpuBackend.auto true "linux" "x86_64" (fun _ => false) =
      Except.ok ⟨"onnxruntime-gpu", some PreferredEp.cuda, true⟩ := by
  exact (plan_auto_device GpuBackend.auto true true true "linux" "x86_64"
    (fun _ => false)).2.2.1 rfl rfl (Or.inl rfl)

/-- C2 (amended): only the non-interactive planner prefers the
DirectML-capable package for CPU runs on Windows, and only when the requested
GPU backend is not CUDA; it selects it whenever downloads are permitted or it
is cached, and otherwise the plain CPU package.  On non-Windows OSes — and in
the interactive planner always — device CPU yields the plain CPU package. -/
theorem cpu_plan_selection (b : GpuBackend) (allow yes : Bool) (os arch : String)
    (cached : String → Bool) (answer : Bool) :
    (os ≠ "windows" →
      plan_noninteractive Device.cpu b allow os arch cached =
        Except.ok ⟨"onnxruntime", none, allow⟩) ∧
    (os = "windows" → b ≠ GpuBackend.cuda →
      allow = true ∨ cached "onnxruntime-directml" = true →
      plan_noninteractive Device.cpu b allow os arch cached =
        Except.ok ⟨"onnxruntime-directml", none, allow⟩) ∧
    (os = "windows" → b = GpuBackend.cuda ∨ (allow = false ∧ cached "onnxruntime-directml" = false) →
      plan_noninteractive Device.cpu b allow os arch cached =
        Except.ok ⟨"onnxruntime", none, allow⟩) ∧
    (resolve_plan Device.cpu b yes os arch cached answer =
      Except.ok ⟨"onnxruntime", none, yes⟩) := by
  refine ⟨?_, ?_, ?_, by simp [resolve_plan]⟩
  · intro hw
    simp [plan_noninteractive, hw]
  · intro hw hb hdl
    simp [plan_noninteractive, hw, hb, hdl]
  · intro hw hcase
    rcases hcase with hb | ⟨ha, hc⟩
    · subst hb
      simp [plan_noninteractive, hw]
    · simp [plan_noninteractive, hw, ha, hc]

/-- Witness for C2 (amended): non-interactive CPU plan on Windows with
downloads permitted picks the DirectML package. -/
theorem cpu_plan_selection_witness :
    plan_noninteractive Device.cpu GpuBackend.auto true "windows" "x86_64" (fun _ => false) =
      Except.ok ⟨"onnxruntime-directml", none, true⟩ := by
  exact (cpu_plan_selection GpuBackend.auto true true "windows" "x86_64"
    (fun _ => false) true).2.1 rfl (by decide) (Or.inl rfl)

/-- Counterexample for C2 as stated: the interactive planner on Windows with
device CPU and downloads permitted (`-y`) still selects the plain CPU
package, not the DirectML-capable one. -/
theorem cpu_plan_interactive_counterexample :
    resolve_plan Device.cpu GpuBackend.auto true "windows" "x86_64" (fun _ => true) true =
      Except.ok ⟨"onnxruntime", none, true⟩ ∧
    ("onnxruntime" : String) ≠ "onnxruntime-directml" := by
  exact ⟨rfl, by decide⟩

/-- The MD5 check never touches the destination except through the final
rename, which it performs only when the check passes. -/
lemma download_check_md5_spec (md5f : List Nat → String) (url : String)
    (body : List Nat) (dg : Digests) (st : DlState) :
    (∀ e, dg.md5_hex = some e → eq_hex e (md5f body) = false →
      (∃ m, (download_check_md5 md5f url body dg st).1 = Except.error m) ∧
      (download_check_md5 md5f url body dg st).2.dst = st.dst) ∧
    ((download_check_md5 md5f url body dg st).2.dst ≠ st.dst →
      (download_check_md5 md5f url body dg st).1 = Except.ok () ∧
      (download_check_md5 md5f url body dg st).2.dst = some body ∧
      (∀ e, dg.md5_hex = some e → eq_hex e (md5f body) = true)) := by
  rcases hmd : dg.md5_hex with _ | e0
  · have hcomp : download_check_md5 md5f url body dg st = download_finish body := by
      simp [download_check_md5, hmd]
    rw [hcomp]
    refine ⟨fun e he => Option.noConfusion he, ?_⟩
    intro _
    exact ⟨rfl, rfl, fun e he => Option.noConfusion he⟩
  · by_cases hq : eq_hex e0 (md5f body) = false
    · have hcomp : download_check_md5 md5f url body dg st =
          (Except.error ("md5 mismatch for " ++ url ++ ": expected " ++ e0
            ++ ", got " ++ md5f body), st) := by
        simp [download_check_md5, hmd, hq]
      rw [hcomp]
      exact ⟨fun e he hf => ⟨⟨_, rfl⟩, rfl⟩, fun hd => absurd rfl hd⟩
    · have hq' : eq_hex e0 (md5f body) = true := by
        cases hh : eq_hex e0 (md5f body)
        · exact absurd hh hq
        · rfl
      have hcomp : download_check_md5 md5f url body dg st = download_finish body := by
        simp [download_check_md5, hmd, hq']
      rw [hcomp]
      refine ⟨?_, ?_⟩
      · intro e he hf
        injection he with h
        subst h
        exact absurd hf hq
      · intro _
        refine ⟨rfl, rfl, ?_⟩
        intro e he
        injection he with h
        subst h
        exact hq'

/-- C3: if a computed SHA-256 (or MD5) digest differs from the expected hex
value, the download returns an error and leaves the destination path exactly
as it was (in particular, absent if it was absent); conversely the
destination changes only when the call succeeds, every requested digest has
verified, and the temp file was renamed onto the destination. -/
theorem download_digest_enforcement (sha256f md5f : List Nat → String)
    (url : String) (status : Nat) (body : List Nat) (dg : Digests)
    (st : DlState) :
    (∀ e, dg.sha256_hex = some e → eq_hex e (sha256f body) = false →
      (∃ m, (download_to_path_with_progress sha256f md5f url status body dg st).1 =
        Except.error m) ∧
      (download_to_path_with_progress sha256f md5f url status body dg st).2.dst = st.dst) ∧
    (∀ e, dg.md5_hex = some e → eq_hex e (md5f body) = false →
      (∃ m, (download_to_path_with_progress sha256f md5f url status body dg st).1 =
        Except.error m) ∧
      (download_to_path_with_progress sha256f md5f url status body dg st).2.dst = st.dst) ∧
    ((download_to_path_with_progress sha256f md5f url status body dg st).2.dst ≠ st.dst →
      (download_to_path_with_progress sha256f md5f url status body dg st).1 = Except.ok () ∧
      (download_to_path_with_progress sha256f md5f url status body dg st).2.dst = some body ∧
      (∀ e, dg.sha256_hex = some e → eq_hex e (sha256f body) = true) ∧
      (∀ e, dg.md5_hex = some e → eq_hex e (md5f body) = true)) := by
  by_cases hst : status / 100 ≠ 2
  · have hcomp : download_to_path_with_progress sha256f md5f url status body dg st =
        (Except.error ("download failed (HTTP " ++ toString status ++ "): " ++ url),
          (⟨none, st.dst⟩ : DlState)) := by
      simp [download_to_path_with_progress, hst]
    rw [hcomp]
    exact ⟨fun e _ _ => ⟨⟨_, rfl⟩, rfl⟩, fun e _ _ => ⟨⟨_, rfl⟩, rfl⟩,
      fun hd => absurd rfl hd⟩
  · rcases hsha : dg.sha256_hex with _ | e0
    · have hcomp : download_to_path_with_progress sha256f md5f url status body dg st =
          download_check_md5 md5f url body dg ⟨some body, st.dst⟩ := by
        simp [download_to_path_with_progress, hst, hsha]
      have hmd := download_check_md5_spec md5f url body dg ⟨some body, st.dst⟩
      rw [hcomp]
      refine ⟨fun e he => Option.noConfusion he, hmd.1, ?_⟩
      intro hd
      have h3 := hmd.2 hd
      exact ⟨h3.1, h3.2.1, fun e he => Option.noConfusion he, h3.2.2⟩
    · by_cases hq : eq_hex e0 (sha256f body) = false
      · have hcomp : download_to_path_with_progress sha256f md5f url status body dg st =
            (Except.error ("sha256 mismatch for " ++ url ++ ": expected " ++ e0
              ++ ", got " ++ sha256f body), (⟨some body, st.dst⟩ : DlState)) := by
          simp [download_to_path_with_progress, hst, hsha, hq]
        rw [hcomp]
        exact ⟨fun e _ _ => ⟨⟨_, rfl⟩, rfl⟩, fun e _ _ => ⟨⟨_, rfl⟩, rfl⟩,
          fun hd => absurd rfl hd⟩
      · have hq' : eq_hex e0 (sha256f body) = true := by
          cases hh : eq_hex e0 (sha256f body)
          · exact absurd hh hq
          · rfl
        have hcomp : download_to_path_with_progress sha256f md5f url status body dg st =
            download_check_md5 md5f url body dg ⟨some body, st.dst⟩ := by
          simp [download_to_path_with_progress, hst, hsha, hq']
        have hmd := download_check_md5_spec md5f url body dg ⟨some body, st.dst⟩
        rw [hcomp]
        refine ⟨?_, hmd.1, ?_⟩
        · intro e he hf
          injection he with h
          subst h
          exact absurd hf hq
        · intro hd
          have h3 := hmd.2 hd
          refine ⟨h3.1, h3.2.1, ?_, h3.2.2⟩
          intro e he
          injection he with h
          subst h
          exact hq'

/-- Witness for C3: a mismatching expected SHA-256 makes the download fail
and leaves nothing at the destination. -/
theorem download_digest_enforcement_witness :
    (∃ m, (download_to_path_with_progress (fun _ => "00") (fun _ => "00")
      "u" 200 [1] ⟨some "ff", none⟩ ⟨none, none⟩).1 = Except.error m) ∧
    (download_to_path_with_progress (fun _ => "00") (fun _ => "00")
      "u" 200 [1] ⟨some "ff", none⟩ ⟨none, none⟩).2.dst = none := by
  exact (download_digest_enforcement (fun _ => "00") (fun _ => "00")
    "u" 200 [1] ⟨some "ff", none⟩ ⟨none, none⟩).1 "ff" rfl (by decide)

/-- A name whose normalization is outside the supported set hits the
fallthrough arm of `model_spec`. -/
lemma model_spec_unsupported (name : String)
    (h : normalize_model_name name ∉ supported_models) :
    model_spec name = Except.error ("unsupported model: " ++ normalize_model_name name
      ++ " (supported: u2netp, u2net, u2net_human_seg, u2net_cloth_seg, silueta, isnet-general-use, isnet-anime)") := by
  simp only [supported_models, List.mem_cons, List.not_mem_nil, or_false, not_or] at h
  obtain ⟨h1, h2, h3, h4, h5, h6, h7⟩ := h
  simp [model_spec, h1, h2, h3, h4, h5, h6, h7]

/-- A successful `model_spec` lookup means the normalized name is in the
supported set. -/
lemma model_spec_ok_mem (name : String) (m : ModelSpecT)
    (h : model_spec name = Except.ok m) :
    normalize_model_name name ∈ supported_models := by
  by_contra hmem
  rw [model_spec_unsupported name hmem] at h
  exact Except.noConfusion h

/-- C8: `ensure_model_noninteractive` rejects any name outside the static
supported set with an error listing the supported names; for a supported
name it returns the cached path without downloading when the file exists,
fails with a download-required error when the file is absent and downloads
are disallowed, and otherwise downloads with no digest verification
(`Digests` both `none`) and returns the cached path. -/
theorem ensure_model_spec (name : String) (allow : Bool) (base : String)
    (existing : List String) :
    (normalize_model_name name ∉ supported_models →
      ∀ dlOk, ensure_model_noninteractive name allow base existing dlOk =
        Except.error ("unsupported model: " ++ normalize_model_name name
          ++ " (supported: u2netp, u2net, u2net_human_seg, u2net_cloth_seg, silueta, isnet-general-use, isnet-anime)")) ∧
    (∀ m, model_spec name = Except.ok m →
      normalize_model_name name ∈ supported_models ∧
      (base ++ "/models/" ++ m.name ++ ".onnx" ∈ existing →
        ∀ dlOk, ensure_model_noninteractive name allow base existing dlOk =
          Except.ok (⟨base ++ "/models/" ++ m.name ++ ".onnx", m.input_size⟩, none)) ∧
      (base ++ "/models/" ++ m.name ++ ".onnx" ∉ existing → allow = false →
        ∀ dlOk, ensure_model_noninteractive name allow base existing dlOk =
          Except.error ("download required: model " ++ m.name ++ " (" ++ m.url ++ ")")) ∧
      (base ++ "/models/" ++ m.name ++ ".onnx" ∉ existing → allow = true →
        ensure_model_noninteractive name allow base existing true =
          Except.ok (⟨base ++ "/models/" ++ m.name ++ ".onnx", m.input_size⟩,
            some ⟨none, none⟩))) := by
  constructor
  · intro hmem dlOk
    rw [show ensure_model_noninteractive name allow base existing dlOk =
      (match model_spec name with
        | Except.error e => Except.error e
        | Except.ok m =>
          let path := base ++ "/models/" ++ m.name ++ ".onnx"
          if path ∈ existing then Except.ok (⟨path, m.input_size⟩, none)
          else if allow = false then
            Except.error ("download required: model " ++ m.name ++ " (" ++ m.url ++ ")")
          else if dlOk then Except.ok (⟨path, m.input_size⟩, some ⟨none, none⟩)
          else Except.error ("download model " ++ m.name ++ " from " ++ m.url)) from rfl]
    rw [model_spec_unsupported name hmem]
  · intro m hm
    refine ⟨model_spec_ok_mem name m hm, ?_, ?_, ?_⟩
    · intro hin dlOk
      simp [ensure_model_noninteractive, hm, hin]
    · intro hout hallow dlOk
      simp [ensure_model_noninteractive, hm, hout, hallow]
    · intro hout hallow
      simp [ensure_model_noninteractive, hm, hout, hallow]

/-- Witness for C8: a fresh cache with downloads allowed downloads `u2netp`
with no digests and returns the cached path. -/
theorem ensure_model_spec_witness :
    ensure_model_noninteractive "u2netp" true "c" [] true =
      Except.ok (⟨"c/models/u2netp.onnx", 320⟩, some ⟨none, none⟩) := by
  have h := (ensure_model_spec "u2netp" true "c" []).2
    ⟨"u2netp", model_url_base ++ "u2netp.onnx", 320⟩ rfl
  exact h.2.2.2 (by simp) rfl

/-- Once the scan of `find_main_lib` holds a candidate, it never drops it. -/
lemma best_lib_some_ne_none (os : String) :
    ∀ (files : List FileEnt) (sz : Nat) (n : String),
      best_lib os (some (sz, n)) files ≠ none
  | [], _, _ => by simp [best_lib]
  | f :: rest, sz, n => by
    cases hm : lib_matches os (strLower f.name) with
    | false => simpa [best_lib, hm] using best_lib_some_ne_none os rest sz n
    | true =>
      by_cases hgt : f.size > sz
      · simpa [best_lib, hm, hgt] using best_lib_some_ne_none os rest f.size f.name
      · simpa [best_lib, hm, hgt] using best_lib_some_ne_none os rest sz n

/-- The scan returns `none` exactly when it started empty and nothing in the
directory matches the platform convention. -/
lemma best_lib_none_iff (os : String) :
    ∀ (files : List FileEnt) (best : Option (Nat × String)),
      best_lib os best files = none ↔
        (best = none ∧ ∀ f ∈ files, lib_matches os (strLower f.name) = false)
  | [], best => by simp [best_lib]
  | f :: rest, best => by
    cases hm : lib_matches os (strLower f.name) with
    | false =>
      rw [show best_lib os best (f :: rest) = best_lib os best rest by
        simp [best_lib, hm]]
      rw [best_lib_none_iff os rest best]
      simp [hm]
    | true =>
      constructor
      · intro h
        exfalso
        cases best with
        | none =>
          exact best_lib_some_ne_none os rest f.size f.name
            (by simpa [best_lib, hm] using h)
        | some b =>
          by_cases hgt : f.size > b.1
          · exact best_lib_some_ne_none os rest f.size f.name
              (by simpa [best_lib, hm, hgt] using h)
          · exact best_lib_some_ne_none os rest b.1 b.2
              (by simpa [best_lib, hm, hgt] using h)
      · intro ⟨_, hall⟩
        exact absurd (hall f (by simp)) (by simp [hm])

/-- What the scan's result contains: a matching file from the directory (or
the initial candidate), of size at least every matching file's size and at
least the initial candidate's size. -/
lemma best_lib_some_spec (os : String) :
    ∀ (files : List FileEnt) (best : Option (Nat × String)) (sz : Nat) (n : String),
      best_lib os best files = some (sz, n) →
      (best = some (sz, n) ∨
        ∃ f ∈ files, f.size = sz ∧ f.name = n ∧ lib_matches os (strLower f.name) = true) ∧
      (∀ g ∈ files, lib_matches os (strLower g.name) = true → g.size ≤ sz) ∧
      (∀ bsz bn, best = some (bsz, bn) → bsz ≤ sz)
  | [], best, sz, n => by
    intro h
    rw [show best_lib os best [] = best from rfl] at h
    subst h
    refine ⟨Or.inl rfl, by simp, ?_⟩
    intro bsz bn hb
    rw [Option.some.injEq] at hb
    exact Nat.le_of_eq (congrArg Prod.fst hb).symm
  | f :: rest, best, sz, n => by
    intro h
    cases hm : lib_matches os (strLower f.name) with
    | false =>
      rw [show best_lib os best (f :: rest) = best_lib os best rest by
        simp [best_lib, hm]] at h
      obtain ⟨hmem, hmax, hbound⟩ := best_lib_some_spec os rest best sz n h
      refine ⟨?_, ?_, hbound⟩
      · rcases hmem with hl | ⟨g, hg, hrest⟩
        · exact Or.inl hl
        · exact Or.inr ⟨g, List.mem_cons_of_mem f hg, hrest⟩
      · intro g hg hmg
        rcases List.mem_cons.mp hg with rfl | hg'
        · exact absurd hmg (by simp [hm])
        · exact hmax g hg' hmg
    | true =>
      cases best with
      | none =>
        rw [show best_lib os none (f :: rest) =
            best_lib os (some (f.size, f.name)) rest by simp [best_lib, hm]] at h
        obtain ⟨hmem, hmax, hbound⟩ := best_lib_some_spec os rest _ sz n h
        refine ⟨?_, ?_, by simp⟩
        · rcases hmem with hl | ⟨g, hg, hrest⟩
          · rw [Option.some.injEq] at hl
            exact Or.inr ⟨f, by simp, congrArg Prod.fst hl,
              (congrArg Prod.snd hl).trans rfl, hm⟩
          · exact Or.inr ⟨g, List.mem_cons_of_mem f hg, hrest⟩
        · intro g hg hmg
          rcases List.mem_cons.mp hg with rfl | hg'
          · exact hbound g.size g.name rfl
          · exact hmax g hg' hmg
      | some b =>
        by_cases hgt : f.size > b.1
        · rw [show best_lib os (some b) (f :: rest) =
              best_lib os (some (f.size, f.name)) rest by
            simp [best_lib, hm, hgt]] at h
          obtain ⟨hmem, hmax, hbound⟩ := best_lib_some_spec os rest _ sz n h
          have hfs : f.size ≤ sz := hbound f.size f.name rfl
          refine ⟨?_, ?_, ?_⟩
          · rcases hmem with hl | ⟨g, hg, hrest⟩
            · rw [Option.some.injEq] at hl
              exact Or.inr ⟨f, by simp, congrArg Prod.fst hl,
                (congrArg Prod.snd hl).trans rfl, hm⟩
            · exact Or.inr ⟨g, List.mem_cons_of_mem f hg, hrest⟩
          · intro g hg hmg
            rcases List.mem_cons.mp hg with rfl | hg'
            · exact hfs
            · exact hmax g hg' hmg
          · intro bsz bn hb
            rw [Option.some.injEq] at hb
            have hb1 : bsz = b.1 := (congrArg Prod.fst hb).symm
            subst hb1
            exact Nat.le_of_lt (Nat.lt_of_lt_of_le hgt hfs)
        · rw [show best_lib os (some b) (f :: rest) =
              best_lib os (some (b.1, b.2)) rest by
            simp [best_lib, hm, hgt]] at h
          obtain ⟨hmem, hmax, hbound⟩ := best_lib_some_spec os rest _ sz n h
          have hbs : b.1 ≤ sz := hbound b.1 b.2 rfl
          refine ⟨?_, ?_, ?_⟩
          · rcases hmem with hl | ⟨g, hg, hrest⟩
            · exact Or.inl (by rw [← hl])
            · exact Or.inr ⟨g, List.mem_cons_of_mem f hg, hrest⟩
          · intro g hg hmg
            rcases List.mem_cons.mp hg with rfl | hg'
            · exact Nat.le_trans (Nat.le_of_not_lt hgt) hbs
            · exact hmax g hg' hmg
          · intro bsz bn hb
            rw [Option.some.injEq] at hb
            have hb1 : bsz = b.1 := (congrArg Prod.fst hb).symm
            subst hb1
            exact hbs

/-- C9: `find_main_lib` returns the OS's exact conventional filename when a
file of that name is present; otherwise it returns a file matching the
platform's prefix/suffix naming convention whose size is maximal among the
matching files, and `none` exactly when no file matches (or the directory is
missing). -/
theorem find_main_lib_spec (os : String) (files : List FileEnt) :
    ((∃ f ∈ files, f.name = prefer_name os) →
      find_main_lib os (some files) = some (prefer_name os)) ∧
    ((¬ ∃ f ∈ files, f.name = prefer_name os) →
      ((find_main_lib os (some files) = none ↔
        ∀ f ∈ files, lib_matches os (strLower f.name) = false) ∧
      (∀ n, find_main_lib os (some files) = some n →
        ∃ f ∈ files, f.name = n ∧ lib_matches os (strLower f.name) = true ∧
          ∀ g ∈ files, lib_matches os (strLower g.name) = true → g.size ≤ f.size))) ∧
    find_main_lib os none = none := by
  refine ⟨?_, ?_, rfl⟩
  · intro hex
    have hany : files.any (fun f => f.name == prefer_name os) = true := by
      rw [List.any_eq_true]
      obtain ⟨f, hf, hn⟩ := hex
      exact ⟨f, hf, by simp [hn]⟩
    simp [find_main_lib, hany]
  · intro hex
    have hany : files.any (fun f => f.name == prefer_name os) = false := by
      rw [List.any_eq_false]
      intro f hf
      simp only [beq_iff_eq]
      exact fun hn => hex ⟨f, hf, hn⟩
    constructor
    · rw [show find_main_lib os (some files) =
        (best_lib os none files).map (fun b => b.2) by simp [find_main_lib, hany]]
      rw [Option.map_eq_none']
      rw [best_lib_none_iff os files none]
      simp
    · intro n hn
      rw [show find_main_lib os (some files) =
        (best_lib os none files).map (fun b => b.2) by simp [find_main_lib, hany]] at hn
      rcases hb : best_lib os none files with _ | b
      · rw [hb] at hn
        exact absurd hn (by simp)
      · rw [hb] at hn
        simp only [Option.map_some', Option.some.injEq] at hn
        obtain ⟨hmem, hmax, _⟩ := best_lib_some_spec os files none b.1 b.2 hb
        rcases hmem with hl | ⟨f, hf, hsz, hname, hm⟩
        · exact absurd hl (by simp)
        · refine ⟨f, hf, hname.trans hn, hm, ?_⟩
          intro g hg hmg
          rw [hsz]
          exact hmax g hg hmg

/-- Witness for C9: the exact conventional Linux filename is preferred. -/
theorem find_main_lib_spec_witness :
    find_main_lib "linux" (some [⟨"libonnxruntime.so", 10⟩]) =
      some (prefer_name "linux") := by
  exact (find_main_lib_spec "linux" [⟨"libonnxruntime.so", 10⟩]).1
    ⟨⟨"libonnxruntime.so", 10⟩, by simp, by decide⟩

/-- In a sorted list, the first element satisfying `p` is `≤` (under the sort
relation) every element satisfying `p`. -/
lemma find_first_sorted {α : Type} (r : α → α → Prop) (p : α → Bool)
    (l : List α) (hs : l.Pairwise r) (f : α) (hf : l.find? p = some f) :
    ∀ g ∈ l, p g = true → f = g ∨ r f g := by
  induction l with
  | nil => exact absurd hf (by simp)
  | cons a t ih =>
    cases hp : p a with
    | true =>
      rw [List.find?_cons_of_pos _ hp, Option.some.injEq] at hf
      subst hf
      intro g hg _
      rcases List.mem_cons.mp hg with rfl | hg'
      · exact Or.inl rfl
      · exact Or.inr ((List.pairwise_cons.mp hs).1 g hg')
    | false =>
      rw [List.find?_cons_of_neg _ (by simp [hp])] at hf
      intro g hg hpg
      rcases List.mem_cons.mp hg with rfl | hg'
      · exact absurd hpg (by simp [hp])
      · exact ih (List.pairwise_cons.mp hs).2 hf g hg' hpg

/-- C7: `select_wheel` restricts the current version's files to
`bdist_wheel` entries and returns, among the matching ones, the entry whose
filename is lexicographically least (first of the sorted candidates);
a missing release list for the current version, or no matching candidate,
is an error. -/
theorem select_wheel_spec (proj : PypiProject) (os arch : String) :
    (releases_lookup proj = none →
      select_wheel proj os arch =
        Except.error ("missing releases entry for version " ++ proj.version)) ∧
    (∀ files, releases_lookup proj = some files →
      (∀ f, select_wheel proj os arch = Except.ok f →
        f ∈ files ∧ f.packagetype = "bdist_wheel" ∧
        wheel_matches f.filename os arch = true ∧
        ∀ g ∈ files, g.packagetype = "bdist_wheel" →
          wheel_matches g.filename os arch = true → f.filename ≤ g.filename) ∧
      ((∀ g ∈ files, g.packagetype = "bdist_wheel" →
          wheel_matches g.filename os arch = false) →
        select_wheel proj os arch =
          Except.error ("no wheel found for " ++ os ++ "/" ++ arch ++ " in " ++ proj.version))) := by
  constructor
  · intro h
    simp [select_wheel, h]
  · intro files h
    haveI : IsTrans PypiReleaseFile (fun a b => a.filename ≤ b.filename) :=
      ⟨fun _ _ _ hab hbc => le_trans hab hbc⟩
    haveI : IsTotal PypiReleaseFile (fun a b => a.filename ≤ b.filename) :=
      ⟨fun a b => le_total a.filename b.filename⟩
    have hred : select_wheel proj os arch =
        (match (List.insertionSort (fun a b => a.filename ≤ b.filename)
            (files.filter (fun f => f.packagetype == "bdist_wheel"))).find?
            (fun f => wheel_matches f.filename os arch) with
          | some f => Except.ok f
          | none => Except.error ("no wheel found for " ++ os ++ "/" ++ arch
              ++ " in " ++ proj.version)) := by
      simp [select_wheel, h]
    constructor
    · intro f hf
      rw [hred] at hf
      rcases hfind : (List.insertionSort (fun a b => a.filename ≤ b.filename)
          (files.filter (fun f => f.packagetype == "bdist_wheel"))).find?
          (fun f => wheel_matches f.filename os arch) with _ | f0
      · rw [hfind] at hf
        exact absurd hf (by simp)
      · rw [hfind] at hf
        rw [Except.ok.injEq] at hf
        subst hf
        have hmem : f0 ∈ files.filter (fun f => f.packagetype == "bdist_wheel") :=
          (List.Perm.mem_iff (List.perm_insertionSort _ _)).mp
            (List.mem_of_find?_eq_some hfind)
        have hpt := List.mem_filter.mp hmem
        have hwm0 := List.find?_some hfind
        have hwm : wheel_matches f0.filename os arch = true := by simpa using hwm0
        refine ⟨hpt.1, by simpa using hpt.2, hwm, ?_⟩
        intro g hg hgpt hgwm
        have hgmem : g ∈ List.insertionSort (fun a b => a.filename ≤ b.filename)
            (files.filter (fun f => f.packagetype == "bdist_wheel")) := by
          rw [List.Perm.mem_iff (List.perm_insertionSort _ _)]
          exact List.mem_filter.mpr ⟨hg, by simp [hgpt]⟩
        have hsorted : (List.insertionSort (fun a b => a.filename ≤ b.filename)
            (files.filter (fun f => f.packagetype == "bdist_wheel"))).Pairwise
            (fun a b => a.filename ≤ b.filename) :=
          List.sorted_insertionSort _ _
        rcases find_first_sorted _ _ _ hsorted f0 hfind g hgmem hgwm with rfl | hle
        · exact le_refl _
        · exact hle
    · intro hnone
      have hfind : (List.insertionSort (fun a b => a.filename ≤ b.filename)
          (files.filter (fun f => f.packagetype == "bdist_wheel"))).find?
          (fun f => wheel_matches f.filename os arch) = none := by
        rw [List.find?_eq_none]
        intro g hg
        have hgmem : g ∈ files.filter (fun f => f.packagetype == "bdist_wheel") :=
          (List.Perm.mem_iff (List.perm_insertionSort _ _)).mp hg
        have hpt := List.mem_filter.mp hgmem
        simp [hnone g hpt.1 (by simpa using hpt.2)]
      rw [hred, hfind]

/-- Witness for C7: a two-wheel release where only one filename matches the
requested platform tags. -/
theorem select_wheel_spec_witness :
    select_wheel
      ⟨"1.0", [("1.0",
        [⟨"onnxruntime-1.0-cp311-win_amd64.whl", "u1", "bdist_wheel", "s1"⟩,
         ⟨"onnxruntime-1.0.tar.gz", "u2", "sdist", "s2"⟩])]⟩
      "windows" "x86_64" =
      Except.ok ⟨"onnxruntime-1.0-cp311-win_amd64.whl", "u1", "bdist_wheel", "s1"⟩ ∧
    (⟨"onnxruntime-1.0-cp311-win_amd64.whl", "u1", "bdist_wheel", "s1"⟩ :
      PypiReleaseFile) ∈
      [⟨"onnxruntime-1.0-cp311-win_amd64.whl", "u1", "bdist_wheel", "s1"⟩,
       ⟨"onnxruntime-1.0.tar.gz", "u2", "sdist", "s2"⟩] := by
  have hok : select_wheel
      ⟨"1.0", [("1.0",
        [⟨"onnxruntime-1.0-cp311-win_amd64.whl", "u1", "bdist_wheel", "s1"⟩,
         ⟨"onnxruntime-1.0.tar.gz", "u2", "sdist", "s2"⟩])]⟩
      "windows" "x86_64" =
      Except.ok ⟨"onnxruntime-1.0-cp311-win_amd64.whl", "u1", "bdist_wheel", "s1"⟩ := by
    rfl
  have h := ((select_wheel_spec
      ⟨"1.0", [("1.0",
        [⟨"onnxruntime-1.0-cp311-win_amd64.whl", "u1", "bdist_wheel", "s1"⟩,
         ⟨"onnxruntime-1.0.tar.gz", "u2", "sdist", "s2"⟩])]⟩
      "windows" "x86_64").2
      [⟨"onnxruntime-1.0-cp311-win_amd64.whl", "u1", "bdist_wheel", "s1"⟩,
       ⟨"onnxruntime-1.0.tar.gz", "u2", "sdist", "s2"⟩] rfl).1
      ⟨"onnxruntime-1.0-cp311-win_amd64.whl", "u1", "bdist_wheel", "s1"⟩ hok
  exact ⟨hok, h.1⟩

/-- C6: a cached version directory whose `lib/` holds no recognizable main
library but which still contains the downloaded wheel archive is recovered by
`find_any_installed_lib`: it extracts the native libraries from the archive
and returns the resulting main library, with no network access (the function
reads only the directory contents passed to it). -/
theorem find_any_installed_recovers (os : String) (v : VersionDir) (w : DirFile)
    (lib2 : List FileEnt) (m : String)
    (h1 : find_main_lib os v.lib = none)
    (h2 : find_any_wheel v.files = some w)
    (h3 : extract_ort_libs_from_wheel w.zip (v.lib.getD []) = Except.ok lib2)
    (h4 : find_main_lib os (some lib2) = some m) :
    find_any_installed_lib os [v] = Except.ok (some (v.name, m)) := by
  unfold find_any_installed_lib
  rw [show List.insertionSort (fun a b => cmp_versions b.name a.name ≠ Ordering.gt) [v] = [v]
    from rfl]
  simp [find_installed_go, h1, h2, h3, h4]

/-- Witness for C6: a version directory holding only a wheel (no `lib/`)
whose `capi` entry extracts to the conventional Linux library name. -/
theorem find_any_installed_recovers_witness :
    find_any_installed_lib "linux"
      [⟨"1.0", none, [⟨"a.whl",
        [⟨"onnxruntime/capi/libonnxruntime.so", false, [0, 1, 2]⟩]⟩]⟩] =
      Except.ok (some ("1.0", "libonnxruntime.so")) := by
  exact find_any_installed_recovers "linux"
    ⟨"1.0", none, [⟨"a.whl",
      [⟨"onnxruntime/capi/libonnxruntime.so", false, [0, 1, 2]⟩]⟩]⟩
    ⟨"a.whl", [⟨"onnxruntime/capi/libonnxruntime.so", false, [0, 1, 2]⟩]⟩
    [⟨"libonnxruntime.so", 3⟩] "libonnxruntime.so" rfl rfl rfl rfl

end Rembg
